import Mathlib

/-!
Verification development for the RAG document-ingestion-and-retrieval core
(`ragapi`): a shallow embedding, in Lean 4, of

* the filesystem fragment store (`ragapi/storage/providers/filesystem.py`),
* the two text segmentation strategies (`ragapi/document/chunker.py`),
* the two embedding providers (`ragapi/embedding/providers/{local,openai}.py`),
* and the ingestion pipeline (`ragapi/api/routes.py`, `process_document`),

together with theorems settling the specification claims about them.

Modelling conventions:

* Python `dict`s become association lists `List (k × v)` with Python's
  insertion-order semantics (`pyGet`, `pySet`); Python dicts cannot hold
  duplicate keys, and `pySet` on a list without duplicate keys preserves
  that shape.
* Python floats become exact numbers: rationals for vector components, and
  the quadratic-field form `num / sqrt denSq` (`CosSim`) for cosine scores.
* The filesystem (pickle files + JSON index) becomes a pure state
  `FsState`; file I/O never fails in the model, and `_save_index`, which
  only mirrors the in-memory index to disk, is the identity.
* `datetime.now()` timestamps (`created_at` fields) are dropped: no claim
  mentions them.
-/

/-! ## Python dict model -/

/-- Lookup in a Python dict modelled as an association list
(first binding wins; a real Python dict has no duplicate keys). -/
def pyGet {k v : Type} [DecidableEq k] : List (k × v) → k → Option v
  | [], _ => none
  | (a, b) :: t, key => if a = key then some b else pyGet t key

/-- Assignment `d[key] = val` in a Python dict: replace the binding in place
if the key exists (Python keeps the key's insertion position), else append. -/
def pySet {k v : Type} [DecidableEq k] : List (k × v) → k → v → List (k × v)
  | [], key, val => [(key, val)]
  | (a, b) :: t, key, val =>
      if a = key then (a, val) :: t else (a, b) :: pySet t key val

/-- Removal of a key (`del d[key]` / `os.remove`): drops the first binding. -/
def pyDel {k v : Type} [DecidableEq k] : List (k × v) → k → List (k × v)
  | [], _ => []
  | (a, b) :: t, key => if a = key then t else (a, b) :: pyDel t key

theorem pyGet_pySet_self {k v : Type} [DecidableEq k]
    (d : List (k × v)) (key : k) (val : v) : pyGet (pySet d key val) key = some val := by
  induction d with
  | nil => simp [pySet, pyGet]
  | cons hd t ih =>
      obtain ⟨a, b⟩ := hd
      by_cases h : a = key <;> simp [pySet, pyGet, h, ih]

theorem pyGet_pySet_ne {k v : Type} [DecidableEq k]
    (d : List (k × v)) (key key' : k) (val : v) (h : key ≠ key') :
    pyGet (pySet d key val) key' = pyGet d key' := by
  induction d with
  | nil => simp [pySet, pyGet, h]
  | cons hd t ih =>
      obtain ⟨a, b⟩ := hd
      by_cases ha : a = key
      · subst ha
        simp [pySet, pyGet, h]
      · simp [pySet, pyGet, ha, ih]

/-! ## Metadata values

Metadata maps (`Dict[str, Any]`) hold strings, integers, booleans, lists of
strings (the semantic chunker's `segment_types`), floats, and `None`.  The
only float ever written into metadata by this code is the cosine score
`metadata["score"]`, an exact value of the form `num / sqrt denSq`; `fnum`
stores that pair. -/

inductive Value where
  | str (s : String)
  | int (n : ℤ)
  | bool (b : Bool)
  | strList (l : List String)
  | fnum (num denSq : ℚ)
  | null
deriving DecidableEq, Repr

abbrev Metadata := List (String × Value)

/-! ## Cosine similarity scores

`FilesystemStorage._compute_similarity` returns
`dot(q, c) / (‖q‖ * ‖c‖)` with `‖·‖` the L2 norm, and `0.0` when either
norm is zero.  Over exact arithmetic that value is `dot / sqrt (nq * nc)`
with `nq`, `nc` the squared norms, so a score is represented by the pair
`(num, denSq)` with `denSq > 0`, denoting the real number
`num / sqrt denSq`. -/

structure CosSim where
  num : ℚ
  denSq : ℚ
  denSqPos : 0 < denSq

instance : DecidableEq CosSim := fun a b =>
  decidable_of_iff (a.num = b.num ∧ a.denSq = b.denSq)
    (by cases a; cases b; simp)

/-- Comparison of two scores `a.num / sqrt a.denSq ≤ b.num / sqrt b.denSq`,
expressed without square roots by comparing signs and squares. -/
def cosLE (a b : CosSim) : Prop :=
  (a.num ≤ 0 ∧ 0 ≤ b.num) ∨
  (0 ≤ a.num ∧ 0 ≤ b.num ∧ a.num ^ 2 * b.denSq ≤ b.num ^ 2 * a.denSq) ∨
  (a.num ≤ 0 ∧ b.num ≤ 0 ∧ b.num ^ 2 * a.denSq ≤ a.num ^ 2 * b.denSq)

instance (a b : CosSim) : Decidable (cosLE a b) := by
  unfold cosLE; exact inferInstance

theorem cosLE_total (a b : CosSim) : cosLE a b ∨ cosLE b a := by
  rcases le_total a.num 0 with ha | ha <;> rcases le_total b.num 0 with hb | hb
  · rcases le_total (b.num ^ 2 * a.denSq) (a.num ^ 2 * b.denSq) with h | h
    · exact Or.inl (Or.inr (Or.inr ⟨ha, hb, h⟩))
    · exact Or.inr (Or.inr (Or.inr ⟨hb, ha, h⟩))
  · exact Or.inl (Or.inl ⟨ha, hb⟩)
  · exact Or.inr (Or.inl ⟨hb, ha⟩)
  · rcases le_total (a.num ^ 2 * b.denSq) (b.num ^ 2 * a.denSq) with h | h
    · exact Or.inl (Or.inr (Or.inl ⟨ha, hb, h⟩))
    · exact Or.inr (Or.inr (Or.inl ⟨hb, ha, h⟩))

theorem cosLE_trans (a b c : CosSim) (hab : cosLE a b) (hbc : cosLE b c) :
    cosLE a c := by
  have hda := a.denSqPos
  have hdb := b.denSqPos
  have hdc := c.denSqPos
  rcases hab with ⟨ha, hb⟩ | ⟨ha, hb, h1⟩ | ⟨ha, hb, h1⟩ <;>
    rcases hbc with ⟨hb', hc⟩ | ⟨hb', hc, h2⟩ | ⟨hb', hc, h2⟩
  · exact Or.inl ⟨ha, hc⟩
  · exact Or.inl ⟨ha, hc⟩
  · -- here b.num = 0, so c.num ^ 2 * b.denSq ≤ 0 forces c.num = 0
    have hb0 : b.num = 0 := le_antisymm hb' hb
    have h2' : c.num ^ 2 * b.denSq ≤ 0 * b.denSq := by
      rw [hb0] at h2; simpa using h2
    have hc2 : c.num ^ 2 ≤ 0 := le_of_mul_le_mul_right h2' hdb
    have hcz : c.num = 0 := pow_eq_zero_iff two_ne_zero |>.mp (le_antisymm hc2 (sq_nonneg _))
    exact Or.inl ⟨ha, le_of_eq hcz.symm⟩
  · -- here b.num = 0, so a.num ^ 2 * b.denSq ≤ 0 forces a.num = 0
    have hb0 : b.num = 0 := le_antisymm hb' hb
    have h1' : a.num ^ 2 * b.denSq ≤ 0 * b.denSq := by
      have hb2 : b.num ^ 2 * a.denSq = 0 := by rw [hb0]; ring
      rw [hb2] at h1; simpa using h1
    have ha2 : a.num ^ 2 ≤ 0 := le_of_mul_le_mul_right h1' hdb
    have haz : a.num = 0 := pow_eq_zero_iff two_ne_zero |>.mp (le_antisymm ha2 (sq_nonneg _))
    exact Or.inl ⟨le_of_eq haz, hc⟩
  · refine Or.inr (Or.inl ⟨ha, hc, ?_⟩)
    nlinarith [mul_le_mul_of_nonneg_right h1 hdc.le,
      mul_le_mul_of_nonneg_right h2 hda.le]
  · -- here b.num = 0, which forces a.num = 0 and c.num = 0
    have hb0 : b.num = 0 := le_antisymm hb' hb
    have hb2 : b.num ^ 2 = 0 := by rw [hb0]; ring
    have h1' : a.num ^ 2 * b.denSq ≤ 0 * b.denSq := by
      rw [hb2] at h1; simpa using h1
    have h2' : c.num ^ 2 * b.denSq ≤ 0 * b.denSq := by
      rw [hb2] at h2; simpa using h2
    have ha2 : a.num ^ 2 ≤ 0 := le_of_mul_le_mul_right h1' hdb
    have hc2 : c.num ^ 2 ≤ 0 := le_of_mul_le_mul_right h2' hdb
    have haz : a.num = 0 := pow_eq_zero_iff two_ne_zero |>.mp (le_antisymm ha2 (sq_nonneg _))
    have hcz : c.num = 0 := pow_eq_zero_iff two_ne_zero |>.mp (le_antisymm hc2 (sq_nonneg _))
    exact Or.inl ⟨le_of_eq haz, le_of_eq hcz.symm⟩
  · exact Or.inl ⟨ha, hc⟩
  · exact Or.inl ⟨ha, hc⟩
  · refine Or.inr (Or.inr ⟨ha, hc, ?_⟩)
    nlinarith [mul_le_mul_of_nonneg_right h1 hdc.le,
      mul_le_mul_of_nonneg_right h2 hda.le]

/-! ## Vectors and `_compute_similarity`

Embedding vectors (`np.ndarray`, 1-D) are lists of exact numbers.  `np.dot`
on 1-D arrays is the inner product and `np.linalg.norm` the square root of
the self inner product, so `norm == 0` iff the squared norm is `0`. -/

abbrev Vec := List ℚ

/-- Inner product of two vectors (`np.dot` over matching dimensions). -/
def dotQ : Vec → Vec → ℚ
  | [], _ => 0
  | _, [] => 0
  | x :: xs, y :: ys => x * y + dotQ xs ys

theorem dotQ_self_nonneg (v : Vec) : 0 ≤ dotQ v v := by
  induction v with
  | nil => simp [dotQ]
  | cons x xs ih =>
      simp only [dotQ]
      have := mul_self_nonneg x
      linarith

/-- Translation of `FilesystemStorage._compute_similarity`: cosine
similarity `dot / (norm_q * norm_c)`, i.e. `dot / sqrt (nq * nc)` with
`nq = dot q q`, `nc = dot c c`; returns `0.0` when either norm is zero. -/
def computeSimilarity (q c : Vec) : CosSim :=
  if h : dotQ q q = 0 ∨ dotQ c c = 0 then ⟨0, 1, one_pos⟩
  else
    ⟨dotQ q c, dotQ q q * dotQ c c,
      mul_pos (lt_of_le_of_ne (dotQ_self_nonneg q) (Ne.symm (not_or.mp h).1))
        (lt_of_le_of_ne (dotQ_self_nonneg c) (Ne.symm (not_or.mp h).2))⟩

/-! ## The filesystem fragment store (`FilesystemStorage`)

State: `files` models the pickle files on disk (path ↦ serialized chunk),
`index` models the per-conversation in-memory index `self.index`
(`conversation_id ↦ (chunk_id ↦ entry)`); `conversation_id` is the
namespace, `None` for the root namespace.  `_save_index` only mirrors the
in-memory index to `index.json` and is the identity here. -/

/-- A stored fragment (`ragapi.storage.base.Chunk`); `created_at` dropped. -/
structure Chunk where
  chunk_id : String
  document_id : Option String
  text : String
  embedding : Option Vec
  metadata : Metadata
deriving DecidableEq, Repr

/-- An index entry (`add_chunks` lines 128-133): `document_id`, the pickle
path, and the chunk's metadata; `created_at` dropped.  Every entry written
by `add_chunks` carries the `document_id` key (possibly `None`). -/
structure ChunkInfo where
  document_id : Option String
  path : String
  metadata : Metadata
deriving DecidableEq, Repr

structure FsState where
  files : List (String × Chunk)
  index : List (Option String × List (String × ChunkInfo))
deriving DecidableEq, Repr

/-- Translation of `FilesystemStorage._get_chunk_path`. -/
def chunkPath (cid : String) (ns : Option String) : String :=
  match ns with
  | some c => c ++ "/" ++ cid ++ ".pickle"
  | none => cid ++ ".pickle"

/-- The index of one conversation, `self.index.get(conversation_id, {})`. -/
def innerIndex (st : FsState) (ns : Option String) : List (String × ChunkInfo) :=
  (pyGet st.index ns).getD []

/-- One iteration of the `for chunk in chunks` loop of `add_chunks`:
pickle the chunk to its path, record the index entry, collect the id. -/
def addChunkStep (ns : Option String) (acc : FsState × List String) (c : Chunk) :
    FsState × List String :=
  let path := chunkPath c.chunk_id ns
  let files := pySet acc.1.files path c
  let info : ChunkInfo := ⟨c.document_id, path, c.metadata⟩
  let inner := pySet (innerIndex acc.1 ns) c.chunk_id info
  ({ files := files, index := pySet acc.1.index ns inner }, acc.2 ++ [c.chunk_id])

/-- Translation of `FilesystemStorage.add_chunks`: empty batches return
immediately; otherwise an index for the conversation is created if absent
and each chunk is pickled and indexed in order.  The model's file writes
never fail, so no chunk is skipped, and `_save_index` is the identity. -/
def addChunks (chunks : List Chunk) (ns : Option String) (st : FsState) :
    List String × FsState :=
  if chunks.isEmpty then ([], st)
  else
    let st0 : FsState :=
      if (pyGet st.index ns).isSome then st else { st with index := pySet st.index ns [] }
    let r := chunks.foldl (addChunkStep ns) (st0, [])
    (r.2, r.1)

/-- Translation of `FilesystemStorage.get_chunk`: consult the conversation
index; absent ids return `None`; otherwise unpickle the recorded path,
where a missing file (unpicklable in the source) also yields `None`. -/
def getChunk (cid : String) (ns : Option String) (st : FsState) : Option Chunk :=
  match pyGet (innerIndex st ns) cid with
  | none => none
  | some info => pyGet st.files info.path

/-- The Python value stored under an index entry's `document_id` key. -/
def docIdVal (d : Option String) : Value :=
  match d with
  | none => Value.null
  | some s => Value.str s

/-- Translation of `FilesystemStorage._matches_filters`.  The source's
`elif key in metadata` fallback for the `document_id` key is unreachable
here because every index entry carries the `document_id` key
(`add_chunks` line 129). -/
def matchesFilters (info : ChunkInfo) (filters : List (String × Value)) : Bool :=
  filters.all fun kv =>
    if kv.1 = "document_id" then decide (docIdVal info.document_id = kv.2)
    else
      match pyGet info.metadata kv.1 with
      | some w => decide (w = kv.2)
      | none => true

/-- The skip test of `search_chunks` line 184 (`if filters and not
self._matches_filters(...)`): an empty (falsy) filter dict skips nothing. -/
def passesFilters (filters : List (String × Value)) (info : ChunkInfo) : Bool :=
  filters.isEmpty || matchesFilters info filters

/-- Lines 193-197 of `search_chunks`: compute the similarity, write it into
the chunk's metadata under `score`, and pair the chunk with the score. -/
def scoreChunk (q : Vec) (c : Chunk) (e : Vec) : Chunk × CosSim :=
  let s := computeSimilarity q e
  ({ c with metadata := pySet c.metadata "score" (Value.fnum s.num s.denSq) }, s)

/-- The candidate-collection loop of `search_chunks` (lines 182-197): walk
the conversation index in order, skip entries failing the filters, load
each chunk, skip unloadable chunks and chunks without an embedding. -/
def collectScored (q : Vec) (ns : Option String) (filters : List (String × Value))
    (st : FsState) : List (Chunk × CosSim) :=
  (innerIndex st ns).filterMap fun entry =>
    if passesFilters filters entry.2 then
      match getChunk entry.1 ns st with
      | none => none
      | some c =>
        match c.embedding with
        | none => none
        | some e => some (scoreChunk q c e)
    else none

/-- Python's `results.sort(key=lambda x: x[1], reverse=True)`: a stable
sort, descending in the score. -/
def pairLE (a b : Chunk × CosSim) : Bool := decide (cosLE b.2 a.2)

/-- The `results` list of `search_chunks` after the sort on line 200. -/
def searchScored (q : Vec) (ns : Option String) (filters : List (String × Value))
    (st : FsState) : List (Chunk × CosSim) :=
  (collectScored q ns filters st).mergeSort pairLE

/-- Translation of `FilesystemStorage.search_chunks` (line 201): the first
`top_k` scored results, projected back to chunks. -/
def searchChunks (q : Vec) (top_k : ℕ) (ns : Option String)
    (filters : List (String × Value)) (st : FsState) : List Chunk :=
  ((searchScored q ns filters st).take top_k).map Prod.fst

/-- Translation of `FilesystemStorage.delete_document`: collect the ids of
the conversation's entries whose `document_id` equals the argument, remove
each entry's pickle file (when present) and its index entry, and return
how many were removed.  When the conversation has no index,
`self.index.get(conversation_id, {})` is a fresh dict and nothing changes. -/
def deleteDocument (docId : String) (ns : Option String) (st : FsState) :
    ℕ × FsState :=
  match pyGet st.index ns with
  | none => (0, st)
  | some inner =>
    let victims := inner.filter fun e => decide (e.2.document_id = some docId)
    let files := victims.foldl (fun fs e => pyDel fs e.2.path) st.files
    let inner2 := inner.filter fun e => ! decide (e.2.document_id = some docId)
    (victims.length, { files := files, index := pySet st.index ns inner2 })

/-- Entries of the conversation index that pass the filters and whose
stored record loads to a chunk carrying an embedding — exactly the entries
the collection loop of `search_chunks` keeps. -/
def embCandidates (ns : Option String) (filters : List (String × Value))
    (st : FsState) : List (String × ChunkInfo) :=
  (innerIndex st ns).filter fun e =>
    passesFilters filters e.2 &&
      (match getChunk e.1 ns st with
       | some c => c.embedding.isSome
       | none => false)

/-- Entries of the conversation index that pass the filters — the claimed
candidate set of the search-ordering property. -/
def filterCandidates (ns : Option String) (filters : List (String × Value))
    (st : FsState) : List (String × ChunkInfo) :=
  (innerIndex st ns).filter fun e => passesFilters filters e.2

/-! ## Concrete states used by witnesses and counterexamples -/

/-- A fragment with an embedding, used by concrete witnesses. -/
def exChunk : Chunk := ⟨"c1", some "d1", "hello", some [1, 2], [("k", Value.str "v")]⟩

/-- A fragment without an embedding (`Chunk.embedding` defaults to `None`
before the embedding stage completes). -/
def exChunkNoEmb : Chunk := ⟨"c2", some "d1", "bye", none, []⟩

/-- A store holding one embedded and one embedding-less fragment. -/
def exSt : FsState := (addChunks [exChunk, exChunkNoEmb] (some "conv") ⟨[], []⟩).2

/-- A store holding a single fragment without an embedding. -/
def exStNoEmb : FsState := (addChunks [exChunkNoEmb] none ⟨[], []⟩).2

/-! ## Supporting lemmas for the store theorems

`List.mergeSort`, `Rat.add` and friends are sealed (`@[irreducible]`) in
the library for elaboration performance only; unsealing them lets concrete
witness states evaluate by `decide`. -/

unseal List.merge List.mergeSort Rat.add Rat.mul Rat.sub

theorem filterMap_length_eq_filter {α β : Type} (f : α → Option β) (p : α → Bool)
    (h : ∀ x, (f x).isSome = p x) :
    ∀ l : List α, (l.filterMap f).length = (l.filter p).length := by
  intro l
  induction l with
  | nil => simp
  | cons x t ih =>
      have hx := h x
      cases hfx : f x with
      | none =>
          rw [hfx] at hx
          simp [List.filterMap_cons, hfx, List.filter_cons, ← hx, ih]
      | some b =>
          rw [hfx] at hx
          simp [List.filterMap_cons, hfx, List.filter_cons, ← hx, ih]

theorem collectScored_length (q : Vec) (ns : Option String)
    (filters : List (String × Value)) (st : FsState) :
    (collectScored q ns filters st).length = (embCandidates ns filters st).length := by
  unfold collectScored embCandidates
  apply filterMap_length_eq_filter
  intro e
  by_cases hp : passesFilters filters e.2
  · cases hg : getChunk e.1 ns st with
    | none => simp [hp, hg]
    | some c => cases he : c.embedding <;> simp [hp, hg, he]
  · simp [hp]

theorem pairLE_trans (a b c : Chunk × CosSim) (h1 : pairLE a b) (h2 : pairLE b c) :
    pairLE a c := by
  simp only [pairLE, decide_eq_true_eq] at h1 h2 ⊢
  exact cosLE_trans c.2 b.2 a.2 h2 h1

theorem pairLE_total (a b : Chunk × CosSim) : pairLE a b || pairLE b a := by
  simp only [pairLE, Bool.or_eq_true, decide_eq_true_eq]
  exact (cosLE_total b.2 a.2).imp id id

/-! ## Claim theorems about the fragment store -/

/-- Claim C1, amended: `search_chunks` returns its results sorted by
descending cosine similarity, `searchChunks` is the `top_k`-truncation of
the sorted scored results, and the number returned is the minimum of
`top_k` and the number of candidates that pass the filters and resolve to
a stored fragment carrying an embedding vector. -/
theorem search_sorted_and_count (q : Vec) (top_k : ℕ) (ns : Option String)
    (filters : List (String × Value)) (st : FsState) :
    (searchScored q ns filters st).Pairwise (fun a b => cosLE b.2 a.2) ∧
    searchChunks q top_k ns filters st =
      ((searchScored q ns filters st).take top_k).map Prod.fst ∧
    (searchChunks q top_k ns filters st).length =
      min top_k (embCandidates ns filters st).length := by
  refine ⟨?_, rfl, ?_⟩
  · have hs := @List.sorted_mergeSort (Chunk × CosSim) pairLE pairLE_trans pairLE_total
      (collectScored q ns filters st)
    have : (searchScored q ns filters st).Pairwise (fun a b => pairLE a b = true) := hs
    exact this.imp (by intro a b hab; simpa [pairLE, decide_eq_true_eq] using hab)
  · rw [searchChunks, List.length_map, List.length_take, searchScored,
      List.length_mergeSort, collectScored_length]

/-- Claim C1, counterexample: with one stored fragment whose `embedding`
is `None` and no filters, the fragment passes the filters but `search`
skips it, so the number returned is `0`, not `min 1 1 = 1`. -/
theorem search_count_counterexample :
    ¬ ((searchChunks [1] 1 none [] exStNoEmb).length =
        min 1 (filterCandidates none [] exStNoEmb).length) := by
  decide

/-- Claim C2: adding a well-formed fragment and then fetching it by id in
the same namespace returns a fragment whose text, embedding vector and
metadata all equal the original's. -/
theorem add_get_roundtrip (st : FsState) (ns : Option String) (c : Chunk) :
    ∃ g, getChunk c.chunk_id ns (addChunks [c] ns st).2 = some g ∧
      g.text = c.text ∧ g.embedding = c.embedding ∧ g.metadata = c.metadata := by
  refine ⟨c, ?_, rfl, rfl, rfl⟩
  simp only [addChunks, List.isEmpty_cons, Bool.false_eq_true, if_false,
    List.foldl_cons, List.foldl_nil, addChunkStep, getChunk, innerIndex]
  by_cases h : (pyGet st.index ns).isSome <;>
    simp [h, pyGet_pySet_self]

/-- Claim C7: `delete_document` is idempotent — a second delete of the
same document returns `0` — and deleting a document with no stored
fragments returns `0` (and raises nothing: the model is total). -/
theorem delete_document_idempotent (st : FsState) (ns : Option String) (d : String) :
    ((deleteDocument d ns (deleteDocument d ns st).2).1 = 0) ∧
    ((∀ e ∈ innerIndex st ns, ¬ e.2.document_id = some d) →
      (deleteDocument d ns st).1 = 0) := by
  constructor
  · cases h : pyGet st.index ns with
    | none => simp [deleteDocument, h]
    | some inner =>
        simp [deleteDocument, h, pyGet_pySet_self, List.filter_filter,
          Bool.and_not_self]
  · intro hnone
    cases h : pyGet st.index ns with
    | none => simp [deleteDocument, h]
    | some inner =>
        simp only [deleteDocument, h]
        have : inner.filter (fun e => decide (e.2.document_id = some d)) = [] := by
          apply List.filter_eq_nil_iff.mpr
          intro e he
          simpa using hnone e (by simp [innerIndex, h, he])
        simp [this]

/-- Claim C7, witness at a concrete store. -/
theorem delete_document_idempotent_witness :
    ((deleteDocument "d1" (some "conv")
        (deleteDocument "d1" (some "conv") exSt).2).1 = 0) ∧
    ((deleteDocument "nosuch" (some "conv") exSt).1 = 0) := by
  have h1 := delete_document_idempotent exSt (some "conv") "d1"
  have h2 := delete_document_idempotent exSt (some "conv") "nosuch"
  exact ⟨h1.1, h2.2 (by decide)⟩

/-- Claim C9: `_matches_filters` rejects an entry only when some filter key
is present with a different value — at the entry level for `document_id`
(always present on entries this store writes), in the entry's metadata for
any other key; a key absent from the metadata matches.  Consequently,
filtering on keys carried by no fragment of the namespace returns exactly
what the unfiltered search returns. -/
theorem matches_filters_requires_present_key (filters : List (String × Value)) :
    (∀ info : ChunkInfo,
      matchesFilters info filters = false ↔
        ∃ kv ∈ filters,
          (kv.1 = "document_id" ∧ docIdVal info.document_id ≠ kv.2) ∨
          (kv.1 ≠ "document_id" ∧
            ∃ w, pyGet info.metadata kv.1 = some w ∧ w ≠ kv.2)) ∧
    (∀ (q : Vec) (top_k : ℕ) (ns : Option String) (st : FsState),
      (∀ kv ∈ filters, kv.1 ≠ "document_id" ∧
          ∀ e ∈ innerIndex st ns, pyGet e.2.metadata kv.1 = none) →
      searchChunks q top_k ns filters st = searchChunks q top_k ns [] st) := by
  constructor
  · intro info
    unfold matchesFilters
    rw [List.all_eq_false]
    refine exists_congr fun kv => and_congr_right fun _ => ?_
    by_cases hk : kv.1 = "document_id"
    · simp [hk]
    · cases hm : pyGet info.metadata kv.1 with
      | none => simp [hk, hm]
      | some w => simp [hk, hm]
  · intro q top_k ns st habsent
    have hcoll : collectScored q ns filters st = collectScored q ns [] st := by
      unfold collectScored
      apply List.filterMap_congr
      intro e he
      have hpass : passesFilters filters e.2 = true := by
        unfold passesFilters matchesFilters
        rw [Bool.or_eq_true, List.all_eq_true]
        refine Or.inr fun kv hkv => ?_
        obtain ⟨hk, hmeta⟩ := habsent kv hkv
        simp [hk, hmeta e he]
      have hpass0 : passesFilters [] e.2 = true := by simp [passesFilters]
      rw [hpass, hpass0]
    unfold searchChunks searchScored
    rw [hcoll]

theorem addChunks_foldl_frame (ns ns' : Option String) (h : ns' ≠ ns)
    (chunks : List Chunk) :
    ∀ acc : FsState × List String,
      pyGet ((chunks.foldl (addChunkStep ns) acc).1.index) ns' = pyGet acc.1.index ns' := by
  induction chunks with
  | nil => intro acc; rfl
  | cons c t ih =>
      intro acc
      rw [List.foldl_cons, ih]
      exact pyGet_pySet_ne _ _ _ _ (Ne.symm h)

/-- Claim C10: `add_chunks` and `delete_document` scoped to one namespace
leave the in-memory index of every other namespace unchanged. -/
theorem namespace_isolation (st : FsState) (chunks : List Chunk) (docId : String)
    (ns ns' : Option String) (h : ns' ≠ ns) :
    pyGet ((addChunks chunks ns st).2.index) ns' = pyGet st.index ns' ∧
    pyGet ((deleteDocument docId ns st).2.index) ns' = pyGet st.index ns' := by
  constructor
  · unfold addChunks
    by_cases hemp : chunks.isEmpty
    · simp [hemp]
    · simp only [hemp, Bool.false_eq_true, if_false]
      rw [addChunks_foldl_frame ns ns' h]
      by_cases hidx : (pyGet st.index ns).isSome
      · simp [hidx]
      · simp [hidx, pyGet_pySet_ne _ _ _ _ (Ne.symm h)]
  · cases hidx : pyGet st.index ns with
    | none => simp [deleteDocument, hidx]
    | some inner =>
        simp [deleteDocument, hidx, pyGet_pySet_ne _ _ _ _ (Ne.symm h)]

/-- Claim C10, witness at a concrete store and two distinct namespaces. -/
theorem namespace_isolation_witness :
    pyGet ((addChunks [exChunk] (some "conv") exSt).2.index) (some "other") =
      pyGet exSt.index (some "other") ∧
    pyGet ((deleteDocument "d1" (some "conv") exSt).2.index) (some "other") =
      pyGet exSt.index (some "other") :=
  namespace_isolation exSt [exChunk] "d1" (some "conv") (some "other") (by decide)

/-- Claim C9, witness: filtering a concrete store on a key that no
fragment carries returns exactly the unfiltered result. -/
theorem matches_filters_requires_present_key_witness :
    searchChunks [1] 5 (some "conv") [("zz", Value.str "w")] exSt =
      searchChunks [1] 5 (some "conv") [] exSt :=
  (matches_filters_requires_present_key [("zz", Value.str "w")]).2
    [1] 5 (some "conv") exSt (by decide)

/-! ## Text segmentation (`ragapi/document/chunker.py`)

Python string helpers: `len` counts code points like `String.length`;
`str.split(sep)` for nonempty `sep` is `String.splitOn`; `str.strip()`
removes leading and trailing whitespace; `seg[i:i+n]` is `pySlice`. -/

/-- Python whitespace for `str.strip` and the regex class `\s`
(ASCII part: space, tab, newline, carriage return, vertical tab,
form feed). -/
def pySpaceChar (c : Char) : Bool :=
  c == ' ' || c == '\t' || c == '\n' || c == '\r' || c == '\x0b' || c == '\x0c'

/-- Python `str.strip()`. -/
def pyStrip (s : String) : String :=
  String.mk (((s.toList.dropWhile pySpaceChar).reverse.dropWhile pySpaceChar).reverse)

/-- Python `s[start : start + len]`. -/
def pySlice (s : String) (start len : ℕ) : String :=
  String.mk ((s.toList.drop start).take len)

/-- Python `range(0, stop, step)` for `step ≥ 1`: the multiples of `step`
below `stop`.  (Python raises `ValueError` for `step = 0`; theorems about
the slicing loop assume `chunk_overlap < chunk_size`.) -/
def rangeStep (stop step : ℕ) : List ℕ :=
  (List.range stop).filter fun i => i % step == 0

/-- Python `str.split(sep)` for nonempty `sep`: cut at each leftmost,
non-overlapping occurrence of `sep`, keeping empty pieces.  The fuel is at
least the text length plus one, so it never runs out. -/
def pySplitGo (sep : List Char) : ℕ → List Char → List Char → List String
  | 0, cs, acc => [String.mk (acc.reverse ++ cs)]
  | fuel + 1, cs, acc =>
      if sep.isPrefixOf cs then
        String.mk acc.reverse :: pySplitGo sep fuel (cs.drop sep.length) []
      else
        match cs with
        | [] => [String.mk acc.reverse]
        | c :: rest => pySplitGo sep fuel rest (c :: acc)

def pySplit (sep text : String) : List String :=
  pySplitGo sep.toList (text.toList.length + 1) text.toList []

/-- Lines 67-72 of `SimpleChunkingStrategy.split_text`: split on the
separator when it is truthy, keep segments with nonempty strip, and fall
back to the whole text when none remain. -/
def segmentsOf (separator text : String) : List String :=
  let segs := if separator ≠ "" then pySplit separator text else [text]
  let segs := segs.filter fun s => pyStrip s ≠ ""
  if segs.isEmpty then [text] else segs

/-- A chunk produced by a chunking strategy (a `{"text", "metadata"}`
dict). -/
structure PyChunk where
  text : String
  metadata : Metadata
deriving DecidableEq, Repr

/-- The metadata every emitted chunk starts from: a copy of the caller's
metadata with `chunk_index = len(chunks)` and the placeholder
`total_chunks = 0`. -/
def baseMeta (md : Metadata) (idx : ℕ) : Metadata :=
  pySet (pySet md "chunk_index" (Value.int idx)) "total_chunks" (Value.int 0)

/-- Loop state of `SimpleChunkingStrategy.split_text`: emitted chunks, the
accumulating `current_chunk`, and `current_size`. -/
structure SState where
  chunks : List PyChunk
  cur : List String
  curSize : ℕ
deriving Repr

/-- Closing the accumulating chunk (emitted only when nonempty), as in
lines 85-93, 119-127 and 145-153 of the source. -/
def closedChunks (md : Metadata) (st : SState) : List PyChunk :=
  if st.cur.isEmpty then st.chunks
  else st.chunks ++ [⟨String.join st.cur, baseMeta md st.chunks.length⟩]

/-- One slice of an oversized segment (lines 99-109): emitted when
nonempty, with `is_large_segment` and `segment_index` metadata. -/
def sliceStep (md : Metadata) (size overlap : ℕ) (seg : String)
    (acc : List PyChunk) (i : ℕ) : List PyChunk :=
  let t := pySlice seg i size
  if t = "" then acc
  else acc ++ [⟨t,
    pySet (pySet (baseMeta md acc.length) "is_large_segment" (Value.bool true))
      "segment_index" (Value.int (i / (size - overlap)))⟩]

/-- Lines 98-109: slice an oversized segment into windows of `chunk_size`
advancing by `chunk_size - chunk_overlap`; every nonempty slice is emitted
with `is_large_segment` and `segment_index` metadata. -/
def sliceChunks (md : Metadata) (size overlap : ℕ) (seg : String)
    (chunks : List PyChunk) : List PyChunk :=
  (rangeStep seg.length (size - overlap)).foldl (sliceStep md size overlap seg) chunks

/-- Lines 130-139: walk the previous chunk's segments backwards, keeping a
suffix whose total length stays within `chunk_overlap`. -/
def overlapGo (overlap : ℕ) : List String → ℕ → List String → List String
  | [], _, acc => acc
  | p :: rest, sz, acc =>
      if sz + p.length ≤ overlap then overlapGo overlap rest (sz + p.length) (p :: acc)
      else acc

def overlapOf (overlap : ℕ) (cur : List String) : List String :=
  overlapGo overlap cur.reverse 0 []

/-- One iteration of the `for segment in segments` loop (lines 78-142). -/
def processSegment (md : Metadata) (size overlap : ℕ) (sep : String)
    (st : SState) (rawSeg : String) : SState :=
  let seg := pyStrip rawSeg ++ sep
  if size < seg.length then
    { chunks := sliceChunks md size overlap seg (closedChunks md st),
      cur := [], curSize := 0 }
  else if st.curSize + seg.length ≤ size then
    { st with cur := st.cur ++ [seg], curSize := st.curSize + seg.length }
  else
    let cur2 := overlapOf overlap st.cur ++ [seg]
    { chunks := closedChunks md st, cur := cur2,
      curSize := (cur2.map String.length).sum }

/-- The final back-fill (lines 156-157 and 360-361): set `total_chunks`
in one chunk's metadata. -/
def backfillTotal (v : Value) (c : PyChunk) : PyChunk :=
  { c with metadata := pySet c.metadata "total_chunks" v }

/-- Translation of `SimpleChunkingStrategy.split_text` (the `document_id`
argument is unused by the source and omitted): fold the segments, close
the trailing chunk, and back-fill `total_chunks` into every chunk. -/
def simpleSplit (size overlap : ℕ) (sep : String) (text : String)
    (md : Metadata) : List PyChunk :=
  if text = "" then []
  else
    let fin := (segmentsOf sep text).foldl (processSegment md size overlap sep) ⟨[], [], 0⟩
    let chunks := closedChunks md fin
    chunks.map (backfillTotal (Value.int chunks.length))

/-! ## The semantic chunking strategy

Two pieces of Python's `re` module are modelled exactly: `re.match` with
the heading pattern, via a small backtracking matcher over a regex syntax
tree, and `re.split(r'\n\s*\n', text)`.  `nltk.sent_tokenize` is an
external capability (spec section 6) and is a parameter `sentTok`. -/

/-- Syntax of the regex fragment the heading pattern needs: character
classes, concatenation, alternation, `X+`, and multiline `$`. -/
inductive Rexp where
  | cls (p : Char → Bool)
  | seq (a b : Rexp)
  | alt (a b : Rexp)
  | plus (p : Char → Bool)
  | eol

/-- Backtracking for `p*`: try the continuation at every split point. -/
def starCls (p : Char → Bool) (k : List Char → Bool) : List Char → Bool
  | [] => k []
  | c :: rest => k (c :: rest) || (p c && starCls p k rest)

/-- Backtracking matcher: `matchRex r s k` holds when some prefix of `s`
matches `r` and `k` accepts the remaining suffix. -/
def matchRex : Rexp → List Char → (List Char → Bool) → Bool
  | .cls p, s, k =>
      match s with
      | [] => false
      | c :: rest => p c && k rest
  | .seq a b, s, k => matchRex a s fun rest => matchRex b rest k
  | .alt a b, s, k => matchRex a s k || matchRex b s k
  | .plus p, s, k =>
      match s with
      | [] => false
      | c :: rest => p c && starCls p k rest
  | .eol, s, k =>
      (match s with
       | [] => true
       | c :: _ => c == '\n') && k s

/-- The `.` class (anything but a newline; `re.DOTALL` is off). -/
def dotChar (c : Char) : Bool := !(c == '\n')

def eqDashChar (c : Char) : Bool := c == '=' || c == '-'

/-- The heading pattern of `SemanticChunkingStrategy`,
`^#+\s+.+$|^.+\n[=\-]{2,}$` with `re.MULTILINE` (so `$` also matches just
before a newline). -/
def headingRex : Rexp :=
  .alt
    (.seq (.plus fun c => c == '#') (.seq (.plus pySpaceChar) (.seq (.plus dotChar) .eol)))
    (.seq (.plus dotChar) (.seq (.cls fun c => c == '\n')
      (.seq (.cls eqDashChar) (.seq (.plus eqDashChar) .eol))))

/-- Translation of `SemanticChunkingStrategy.is_heading`: `re.match`
anchors the pattern at the start of the string and allows trailing text. -/
def isHeading (s : String) : Bool := matchRex headingRex s.toList fun _ => true

/-- Leftmost-match length for `\n\s*\n` anchored at the head of the list:
the first character must be a newline, `\s*` greedily consumes whitespace,
and the match ends at the last newline inside that whitespace run. -/
def blankLen (cs : List Char) : Option ℕ :=
  match cs with
  | '\n' :: rest =>
      let run := rest.takeWhile pySpaceChar
      match (run.enum.filter fun p => p.2 == '\n').getLast? with
      | some kv => some (kv.1 + 2)
      | none => none
  | _ => none

/-- Position and length of the leftmost `\n\s*\n` match. -/
def findBlankGo : List Char → ℕ → Option (ℕ × ℕ)
  | [], _ => none
  | c :: rest, i =>
      match blankLen (c :: rest) with
      | some len => some (i, len)
      | none => findBlankGo rest (i + 1)

/-- Translation of `re.split(r'\n\s*\n', text)`: cut at each leftmost
match.  Every match is at least two characters long, so fuel equal to the
text length never runs out. -/
def reSplitGo : ℕ → List Char → List String
  | 0, cs => [String.mk cs]
  | fuel + 1, cs =>
      match findBlankGo cs 0 with
      | none => [String.mk cs]
      | some iv => String.mk (cs.take iv.1) :: reSplitGo fuel (cs.drop (iv.1 + iv.2))

def reSplitBlank (text : String) : List String :=
  reSplitGo text.length text.toList

/-- Loop state of `SemanticChunkingStrategy.split_text`: emitted chunks,
the accumulating chunk, its size, and `current_segment_types`.  Python
iterates that set in an implementation-defined order; the model fixes
insertion order. -/
structure MState where
  chunks : List PyChunk
  cur : List String
  curSize : ℕ
  types : List String
deriving Repr

/-- Model of `current_segment_types.add(t)`: a Python set, kept here in
insertion order. -/
def addType (t : String) (ts : List String) : List String :=
  if t ∈ ts then ts else ts ++ [t]

/-- Metadata of a semantic chunk: base metadata plus `segment_types`. -/
def semMeta (md : Metadata) (idx : ℕ) (types : List String) : Metadata :=
  pySet (baseMeta md idx) "segment_types" (Value.strList types)

/-- Closing the accumulating semantic chunk (`"\n\n".join(current_chunk)`). -/
def mCloseChunks (md : Metadata) (st : MState) : List PyChunk :=
  st.chunks ++ [⟨String.intercalate "\n\n" st.cur, semMeta md st.chunks.length st.types⟩]

/-- State of the sentence loop (lines 275-320): the outer state plus the
accumulating sentence paragraph `chunk_para`. -/
structure SentState where
  chunks : List PyChunk
  cur : List String
  curSize : ℕ
  types : List String
  chunkPara : String
deriving Repr

/-- One iteration of `for sentence in sentences` (lines 281-314). -/
def sentStep (md : Metadata) (size : ℕ) (s : SentState) (sentence : String) :
    SentState :=
  if s.chunkPara.length + sentence.length + 1 ≤ size then
    { s with chunkPara :=
        if s.chunkPara = "" then sentence else s.chunkPara ++ " " ++ sentence }
  else
    let s1 :=
      if s.chunkPara = "" then s
      else
        let cur2 := s.cur ++ [s.chunkPara]
        let types2 := addType "paragraph_split" s.types
        if size < s.curSize + s.chunkPara.length then
          { chunks := s.chunks ++ [⟨String.intercalate "\n\n" cur2.dropLast,
              pySet (semMeta md s.chunks.length types2) "split_type"
                (Value.str "sentence")⟩],
            cur := [(cur2.getLast?).getD ""],
            curSize := ((cur2.getLast?).getD "").length,
            types := ["paragraph_split"],
            chunkPara := s.chunkPara }
        else
          { s with
            cur := cur2
            types := types2
            curSize := s.curSize + s.chunkPara.length }
    { s1 with chunkPara := sentence }

/-- One iteration of `for para_idx, paragraph in enumerate(paragraphs)`
(lines 234-345 of the source; `para_idx` is unused there). -/
def processParagraph (md : Metadata) (size : ℕ) (sentTok : String → List String)
    (st : MState) (rawPara : String) : MState :=
  let para := pyStrip rawPara
  let isH := isHeading para
  let st1 : MState :=
    if isH && !st.cur.isEmpty && decide (0 < st.curSize) then
      { chunks := mCloseChunks md st, cur := [], curSize := 0, types := [] }
    else st
  if size < para.length then
    let chunks1 := if st1.cur.isEmpty then st1.chunks else mCloseChunks md st1
    let r := (sentTok para).foldl (sentStep md size) ⟨chunks1, [], 0, [], ""⟩
    if r.chunkPara = "" then ⟨r.chunks, r.cur, r.curSize, r.types⟩
    else ⟨r.chunks, r.cur ++ [r.chunkPara], r.curSize + r.chunkPara.length,
      addType "paragraph_split" r.types⟩
  else if st1.curSize + (if st1.cur.isEmpty then 0 else 2) + para.length ≤ size then
    let cur2 := st1.cur ++ [para]
    { chunks := st1.chunks, cur := cur2,
      curSize := st1.curSize + (if 1 < cur2.length then 2 else 0) + para.length,
      types := addType (if isH then "heading" else "paragraph") st1.types }
  else
    let chunks1 := if st1.cur.isEmpty then st1.chunks else mCloseChunks md st1
    { chunks := chunks1, cur := [para], curSize := para.length,
      types := [if isH then "heading" else "paragraph"] }

/-- Translation of `SemanticChunkingStrategy.split_text` (the
`document_id` argument is unused by the source and omitted;
`chunk_overlap` is stored by the strategy but never used here). -/
def semanticSplit (size : ℕ) (sentTok : String → List String) (text : String)
    (md : Metadata) : List PyChunk :=
  if text = "" then []
  else
    let paragraphs := ((reSplitBlank text).map pyStrip).filter fun p => p ≠ ""
    if paragraphs.isEmpty then []
    else
      let fin := paragraphs.foldl (processParagraph md size sentTok) ⟨[], [], 0, []⟩
      let chunks := if fin.cur.isEmpty then fin.chunks else mCloseChunks md fin
      chunks.map (backfillTotal (Value.int chunks.length))

/-! ## Embedding providers (`ragapi/embedding/providers/`)

The remote (OpenAI) backend posts fixed-size sub-batches sequentially; a
call is a function from the sub-batch to the HTTP response (status, body
text, and the parsed `data` vectors).  The local (SentenceTransformers)
backend encodes the whole input batch in one call to the loaded model.
Both models record the batches actually handed to the network/model so
that "without making a call" is expressible. -/

structure PostResponse where
  status : ℕ
  body : String
  data : List Vec
deriving Repr

/-- Failures of `OpenAIEmbedding.get_embeddings`: the `ValueError` raised
by `initialize` when `OPENAI_API_KEY` is empty, and the exception
`"OpenAI API error: {status} - {body}"` raised for a non-200 response
(the spec's `ProviderError`, carrying the response status and body). -/
inductive OpenAIErr where
  | keyMissing
  | apiError (status : ℕ) (body : String)
deriving DecidableEq, Repr

/-- Python `texts[i:i+n]` for `i in range(0, len(texts), n)`: the
fixed-size sub-batches (lines 67-70 of the OpenAI provider, batch loop of
`process_document`). -/
def pyBatches {α : Type} (n : ℕ) (l : List α) : List (List α) :=
  (rangeStep l.length n).map fun i => (l.drop i).take n

/-- The sequential sub-batch loop of `OpenAIEmbedding.get_embeddings`
(lines 67-97): a non-200 response raises immediately (the `except` clause
logs and re-raises), a 200 response appends the vectors of its `data`
field. -/
def openaiLoop (post : List String → PostResponse) :
    List (List String) → List Vec → List (List String) →
    Except OpenAIErr (List Vec) × List (List String)
  | [], acc, calls => (.ok acc, calls)
  | b :: rest, acc, calls =>
      let r := post b
      if r.status ≠ 200 then (.error (.apiError r.status r.body), calls ++ [b])
      else openaiLoop post rest (acc ++ r.data) (calls ++ [b])

/-- Translation of `OpenAIEmbedding.get_embeddings`: an empty API key
raises from `initialize` (line 57-58); an empty input returns `[]` before
any request (line 60-61); otherwise the input is processed in sub-batches
of 20. -/
def openaiGetEmbeddings (apiKey : String) (post : List String → PostResponse)
    (texts : List String) : Except OpenAIErr (List Vec) × List (List String) :=
  if apiKey = "" then (.error .keyMissing, [])
  else if texts.isEmpty then (.ok [], [])
  else openaiLoop post (pyBatches 20 texts) [] []

/-- Translation of `SentenceTransformerEmbedding.get_embeddings` for an
already-initialized model (lines 50-55): the whole input batch — empty or
not — is handed to `self.model.encode` in one call, and the resulting
vectors are returned; there is no empty-input early return.  The second
component records the batches passed to the model. -/
def localGetEmbeddings (encode : List String → List Vec) (texts : List String) :
    List Vec × List (List String) :=
  (encode texts, [texts])

/-! ## The ingestion pipeline (`process_document`, `ragapi/api/routes.py`)

The pipeline is a function of its collaborators: the extraction capability
(`Except`: it may raise), the configured chunker, the embedding provider,
the batch size, and an id supply standing for `uuid.uuid4()`.  Status
records are collected in write order; wall-clock metadata is dropped. -/

inductive DocStatus where
  | pending
  | processing
  | indexed
  | failed
deriving DecidableEq, Repr

inductive PStage where
  | initialization
  | textExtraction
  | chunking
  | embedding
  | storage
  | complete
deriving DecidableEq, Repr

/-- One write of `update_document_status`: status, stage, and the error
message when present. -/
structure StatusRec where
  status : DocStatus
  stage : PStage
  error : Option String
deriving DecidableEq, Repr

/-- The `result` dict `process_document` returns. -/
structure PipeResult where
  success : Bool
  chunkCount : ℕ
  error : Option String
  stage : PStage
deriving DecidableEq, Repr

/-- The embedding/chunk-construction loop (lines 185-206): each sub-batch
of chunk texts goes through the provider; a provider exception aborts the
document, and a response with fewer vectors than texts would raise
`IndexError` at `embeddings[j]`. -/
def buildBatches (embedFn : List String → Except String (List Vec))
    (docId : String) (mkId : ℕ → String) :
    List (List PyChunk) → ℕ → Except String (List Chunk)
  | [], _ => .ok []
  | b :: rest, n =>
      match embedFn (b.map (·.text)) with
      | .error e => .error e
      | .ok embs =>
          if embs.length < b.length then .error "list index out of range"
          else
            let built := (b.zip embs).enum.map fun p =>
              Chunk.mk (mkId (n + p.1)) (some docId) p.2.1.text (some p.2.2) p.2.1.metadata
            match buildBatches embedFn docId mkId rest (n + b.length) with
            | .error e => .error e
            | .ok more => .ok (built ++ more)

/-- Translation of `process_document` (lines 104-264): persist a status
record before each stage, catch any stage's exception, record the failing
stage and message, and return the result instead of raising. -/
def processDocument (extract : Except String (String × Metadata))
    (splitFn : String → String → Metadata → List PyChunk)
    (embedFn : List String → Except String (List Vec)) (batchSize : ℕ)
    (mkId : ℕ → String) (docId : String) (ns : Option String) (st : FsState) :
    PipeResult × List StatusRec × FsState :=
  let ups := [StatusRec.mk .processing .initialization none,
    StatusRec.mk .processing .textExtraction none]
  match extract with
  | .error msg =>
      (⟨false, 0, some msg, .textExtraction⟩,
        ups ++ [StatusRec.mk .failed .textExtraction (some msg)], st)
  | .ok td =>
      let ups := ups ++ [StatusRec.mk .processing .chunking none]
      let chunksData := splitFn td.1 docId td.2
      let ups := ups ++ [StatusRec.mk .processing .embedding none]
      match buildBatches embedFn docId mkId (pyBatches batchSize chunksData) 0 with
      | .error msg =>
          (⟨false, 0, some msg, .embedding⟩,
            ups ++ [StatusRec.mk .failed .embedding (some msg)], st)
      | .ok chunks =>
          let ups := ups ++ [StatusRec.mk .processing .storage none]
          let r := addChunks chunks ns st
          (⟨true, r.1.length, none, .storage⟩,
            ups ++ [StatusRec.mk .indexed .complete none], r.2)

/-! ## Claim theorems about the providers and the pipeline -/

/-- Claim C5: when extraction raises, the pipeline catches the exception
(the model function returns a result rather than failing), the last
persisted status record is `failed` at stage `text_extraction` carrying
the error message, and the store is left unchanged — no fragments are
stored. -/
theorem extraction_failure_recorded (splitFn : String → String → Metadata → List PyChunk)
    (embedFn : List String → Except String (List Vec)) (batchSize : ℕ)
    (mkId : ℕ → String) (docId : String) (ns : Option String) (st : FsState)
    (msg : String) (extract : Except String (String × Metadata))
    (hx : extract = Except.error msg) :
    (processDocument extract splitFn embedFn batchSize mkId docId ns st).1.success = false ∧
    (processDocument extract splitFn embedFn batchSize mkId docId ns st).1.stage =
      PStage.textExtraction ∧
    (processDocument extract splitFn embedFn batchSize mkId docId ns st).1.error = some msg ∧
    (processDocument extract splitFn embedFn batchSize mkId docId ns st).2.1.getLast? =
      some (StatusRec.mk .failed .textExtraction (some msg)) ∧
    (processDocument extract splitFn embedFn batchSize mkId docId ns st).2.2 = st := by
  subst hx
  simp [processDocument]

/-- Claim C5, witness at concrete collaborators. -/
theorem extraction_failure_recorded_witness :
    (processDocument (Except.error "boom") (fun _ _ _ => []) (fun _ => Except.ok [])
        10 (fun _ => "id") "doc" none ⟨[], []⟩).1.success = false ∧
    (processDocument (Except.error "boom") (fun _ _ _ => []) (fun _ => Except.ok [])
        10 (fun _ => "id") "doc" none ⟨[], []⟩).1.stage = PStage.textExtraction ∧
    (processDocument (Except.error "boom") (fun _ _ _ => []) (fun _ => Except.ok [])
        10 (fun _ => "id") "doc" none ⟨[], []⟩).1.error = some "boom" ∧
    (processDocument (Except.error "boom") (fun _ _ _ => []) (fun _ => Except.ok [])
        10 (fun _ => "id") "doc" none ⟨[], []⟩).2.1.getLast? =
      some (StatusRec.mk .failed .textExtraction (some "boom")) ∧
    (processDocument (Except.error "boom") (fun _ _ _ => []) (fun _ => Except.ok [])
        10 (fun _ => "id") "doc" none ⟨[], []⟩).2.2 = (⟨[], []⟩ : FsState) :=
  extraction_failure_recorded (fun _ _ _ => []) (fun _ => Except.ok []) 10
    (fun _ => "id") "doc" none ⟨[], []⟩ "boom" (Except.error "boom") rfl

/-- Claim C6, amended: with an empty input list the remote backend returns
`[]` without posting any sub-batch, while the local backend still invokes
the underlying model, passing it the empty list in a single `encode` call
and returning whatever the model produces (the actual model returns an
empty array, hence `[]`). -/
theorem empty_embed_behaviour (apiKey : String) (post : List String → PostResponse)
    (encode : List String → List Vec) (hk : apiKey ≠ "") :
    openaiGetEmbeddings apiKey post [] = (Except.ok [], []) ∧
    localGetEmbeddings encode [] = (encode [], [[]]) := by
  constructor
  · simp [openaiGetEmbeddings, hk]
  · rfl

/-- Claim C6, witness at a concrete key, poster and model. -/
theorem empty_embed_behaviour_witness :
    openaiGetEmbeddings "sk-test" (fun _ => ⟨200, "", []⟩) [] = (Except.ok [], []) ∧
    localGetEmbeddings (fun ts => ts.map fun _ => [0]) [] =
      ((fun (ts : List String) => ts.map fun _ => ([0] : Vec)) [], [[]]) :=
  empty_embed_behaviour "sk-test" (fun _ => ⟨200, "", []⟩)
    (fun ts => ts.map fun _ => [0]) (by decide)

/-- Claim C6, counterexample: the local backend invokes the underlying
model even for the empty input — the list of batches handed to
`model.encode` is `[[]]`, not `[]`, so "returns an empty list without
invoking the underlying model" is false for the local variant. -/
theorem empty_embed_counterexample :
    (localGetEmbeddings (fun ts => ts.map fun _ => ([0] : Vec)) []).2 ≠ [] := by
  decide

theorem openaiLoop_first_failure (post : List String → PostResponse) :
    ∀ (bs : List (List String)) (i : ℕ) (hi : i < bs.length)
      (acc : List Vec) (calls : List (List String)),
      (post (bs.get ⟨i, hi⟩)).status ≠ 200 →
      (∀ j b, j < i → bs.get? j = some b → (post b).status = 200) →
      (openaiLoop post bs acc calls).1 =
        Except.error (.apiError (post (bs.get ⟨i, hi⟩)).status
          (post (bs.get ⟨i, hi⟩)).body) := by
    intro bs
    induction bs with
    | nil => intro i hi; simp at hi
    | cons b rest ih =>
        intro i hi acc calls hfail hok
        cases i with
        | zero =>
            simp only [List.get] at hfail
            simp [openaiLoop, hfail]
        | succ i' =>
            have hb : (post b).status = 200 := hok 0 b (Nat.succ_pos i') rfl
            simp only [openaiLoop, hb]
            simp only [ne_eq, not_true_eq_false, if_false, reduceIte]
            exact ih i' (by simpa using hi) _ _ (by simpa using hfail)
              (fun j bj hj hbj => hok (j + 1) bj (Nat.succ_lt_succ hj) (by simpa using hbj))

/-- Claim C8: in the remote backend, the first sub-batch answered with a
non-success status aborts the whole call with the error carrying that
response's status and body, and no list of vectors — partial or otherwise
— is returned. -/
theorem nonsuccess_subbatch_aborts (apiKey : String)
    (post : List String → PostResponse) (texts : List String) (i : ℕ)
    (hk : apiKey ≠ "") (hi : i < (pyBatches 20 texts).length)
    (hfail : (post ((pyBatches 20 texts).get ⟨i, hi⟩)).status ≠ 200)
    (hok : ∀ j b, j < i → (pyBatches 20 texts).get? j = some b → (post b).status = 200) :
    (openaiGetEmbeddings apiKey post texts).1 =
      Except.error (.apiError (post ((pyBatches 20 texts).get ⟨i, hi⟩)).status
        (post ((pyBatches 20 texts).get ⟨i, hi⟩)).body) ∧
    ∀ vs : List Vec, (openaiGetEmbeddings apiKey post texts).1 ≠ Except.ok vs := by
  have htexts : ¬ texts.isEmpty := by
    intro he
    rw [List.isEmpty_iff] at he
    subst he
    simp [pyBatches, rangeStep] at hi
  have hmain : (openaiGetEmbeddings apiKey post texts).1 =
      Except.error (.apiError (post ((pyBatches 20 texts).get ⟨i, hi⟩)).status
        (post ((pyBatches 20 texts).get ⟨i, hi⟩)).body) := by
    unfold openaiGetEmbeddings
    simp only [hk, htexts, if_false, reduceIte]
    exact openaiLoop_first_failure post (pyBatches 20 texts) i hi [] [] hfail hok
  exact ⟨hmain, fun vs hvs => by rw [hmain] at hvs; exact Except.noConfusion hvs⟩

/-- Claim C8, witness: a concrete two-batch call whose second sub-batch
fails with status 429 aborts with that status and body. -/
theorem nonsuccess_subbatch_aborts_witness :
    (openaiGetEmbeddings "sk-test"
        (fun b => if b.length = 20 then ⟨200, "", b.map fun _ => [0]⟩
          else ⟨429, "rate limited", []⟩)
        (List.replicate 21 "t")).1 =
      Except.error (.apiError 429 "rate limited") ∧
    ∀ vs : List Vec,
      (openaiGetEmbeddings "sk-test"
          (fun b => if b.length = 20 then ⟨200, "", b.map fun _ => [0]⟩
            else ⟨429, "rate limited", []⟩)
          (List.replicate 21 "t")).1 ≠ Except.ok vs := by
  have h := nonsuccess_subbatch_aborts "sk-test"
    (fun b => if b.length = 20 then ⟨200, "", b.map fun _ => [0]⟩
      else ⟨429, "rate limited", []⟩)
    (List.replicate 21 "t") 1 (by decide) (by decide) (by decide)
    (fun j b hj hb => by
      have hj0 : j = 0 := by omega
      subst hj0
      rw [show (pyBatches 20 (List.replicate 21 "t")).get? 0 =
          some (List.replicate 20 "t") from by decide] at hb
      cases hb
      decide)
  exact ⟨by rw [h.1]; rfl, h.2⟩

/-! ## Dense chunk indices (claim C4)

Every append site of both strategies stamps `chunk_index = len(chunks)`
into the new chunk's metadata, and `total_chunks` is back-filled at the
end; the invariant below is preserved by every loop. -/

/-- Every chunk of the list records its own position under `chunk_index`. -/
def idxOK (l : List PyChunk) : Prop :=
  ∀ i (hi : i < l.length),
    pyGet (l.get ⟨i, hi⟩).metadata "chunk_index" = some (Value.int i)

theorem foldl_preserve {β α : Type} (P : β → Prop) (f : β → α → β)
    (hf : ∀ b x, P b → P (f b x)) :
    ∀ (l : List α) (b : β), P b → P (l.foldl f b) := by
  intro l
  induction l with
  | nil => intro b hb; exact hb
  | cons x t ih => intro b hb; exact ih (f b x) (hf b x hb)

theorem pyGet_baseMeta_chunk_index (md : Metadata) (n : ℕ) :
    pyGet (baseMeta md n) "chunk_index" = some (Value.int n) := by
  unfold baseMeta
  rw [pyGet_pySet_ne _ _ _ _ (by decide)]
  exact pyGet_pySet_self _ _ _

theorem pyGet_semMeta_chunk_index (md : Metadata) (n : ℕ) (types : List String) :
    pyGet (semMeta md n types) "chunk_index" = some (Value.int n) := by
  unfold semMeta
  rw [pyGet_pySet_ne _ _ _ _ (by decide)]
  exact pyGet_baseMeta_chunk_index md n

theorem idxOK_append {l : List PyChunk} {c : PyChunk} (h : idxOK l)
    (hc : pyGet c.metadata "chunk_index" = some (Value.int l.length)) :
    idxOK (l ++ [c]) := by
  intro i hi
  have hi' : i < l.length + 1 := by simpa using hi
  rcases Nat.lt_or_ge i l.length with h1 | h1
  · rw [List.get_eq_getElem, List.getElem_append_left h1]
    have := h i h1
    rw [List.get_eq_getElem] at this
    exact this
  · have hieq : i = l.length := by omega
    subst hieq
    have hgc : (l ++ [c]).get ⟨l.length, hi⟩ = c := by
      rw [List.get_eq_getElem]
      simp
    rw [hgc]
    exact hc

theorem closedChunks_idxOK (md : Metadata) (st : SState) (h : idxOK st.chunks) :
    idxOK (closedChunks md st) := by
  unfold closedChunks
  by_cases hc : st.cur.isEmpty
  · simpa [hc] using h
  · simpa [hc] using idxOK_append h (pyGet_baseMeta_chunk_index md st.chunks.length)

theorem sliceStep_idxOK (md : Metadata) (size overlap : ℕ) (seg : String)
    (acc : List PyChunk) (i : ℕ) (hacc : idxOK acc) :
    idxOK (sliceStep md size overlap seg acc i) := by
  unfold sliceStep
  dsimp only
  by_cases ht : pySlice seg i size = ""
  · simpa [ht] using hacc
  · simp only [ht, if_false, reduceIte]
    refine idxOK_append hacc ?_
    rw [pyGet_pySet_ne _ _ _ _ (by decide), pyGet_pySet_ne _ _ _ _ (by decide)]
    exact pyGet_baseMeta_chunk_index md acc.length

theorem sliceChunks_idxOK (md : Metadata) (size overlap : ℕ) (seg : String)
    (chunks : List PyChunk) (h : idxOK chunks) :
    idxOK (sliceChunks md size overlap seg chunks) := by
  unfold sliceChunks
  exact foldl_preserve idxOK _ (fun b x hb => sliceStep_idxOK md size overlap seg b x hb)
    _ chunks h

theorem processSegment_idxOK (md : Metadata) (size overlap : ℕ) (sep : String)
    (st : SState) (s : String) (h : idxOK st.chunks) :
    idxOK (processSegment md size overlap sep st s).chunks := by
  unfold processSegment
  dsimp only
  split
  · exact sliceChunks_idxOK md size overlap _ _ (closedChunks_idxOK md st h)
  · split
    · exact h
    · exact closedChunks_idxOK md st h

theorem idxOK_backfill (l : List PyChunk) (v : Value) (h : idxOK l) :
    idxOK (l.map (backfillTotal v)) := by
  intro i hi
  have hl : i < l.length := by simpa using hi
  rw [List.get_eq_getElem, List.getElem_map]
  unfold backfillTotal
  dsimp only
  rw [pyGet_pySet_ne _ _ _ _ (by decide)]
  have := h i hl
  rw [List.get_eq_getElem] at this
  exact this

theorem totalOK_backfill (l : List PyChunk) (v : Value) :
    ∀ i (hi : i < (l.map (backfillTotal v)).length),
      pyGet ((l.map (backfillTotal v)).get ⟨i, hi⟩).metadata "total_chunks" = some v := by
  intro i hi
  rw [List.get_eq_getElem, List.getElem_map]
  exact pyGet_pySet_self _ _ _

theorem mCloseChunks_idxOK (md : Metadata) (st : MState) (h : idxOK st.chunks) :
    idxOK (mCloseChunks md st) :=
  idxOK_append h (pyGet_semMeta_chunk_index md st.chunks.length st.types)

theorem sentStep_idxOK (md : Metadata) (size : ℕ) (s : SentState) (sentence : String)
    (h : idxOK s.chunks) : idxOK (sentStep md size s sentence).chunks := by
  unfold sentStep
  dsimp only
  split
  · exact h
  · split
    · exact h
    · split
      · refine idxOK_append h ?_
        rw [pyGet_pySet_ne _ _ _ _ (by decide)]
        exact pyGet_semMeta_chunk_index md s.chunks.length _
      · exact h

theorem processParagraph_idxOK (md : Metadata) (size : ℕ)
    (sentTok : String → List String) (st : MState) (p : String) (h : idxOK st.chunks) :
    idxOK (processParagraph md size sentTok st p).chunks := by
  unfold processParagraph
  dsimp only
  set st1 := if isHeading (pyStrip p) && !st.cur.isEmpty && decide (0 < st.curSize) then
      MState.mk (mCloseChunks md st) [] 0 [] else st with hst1
  have h1 : idxOK st1.chunks := by
    rw [hst1]
    split
    · exact mCloseChunks_idxOK md st h
    · exact h
  repeat' split
  all_goals
    first
      | exact h1
      | exact mCloseChunks_idxOK md st1 h1
      | exact foldl_preserve (fun s : SentState => idxOK s.chunks) _
          (fun b x hb => sentStep_idxOK md size b x hb) _ _ h1
      | exact foldl_preserve (fun s : SentState => idxOK s.chunks) _
          (fun b x hb => sentStep_idxOK md size b x hb) _ _
          (mCloseChunks_idxOK md st1 h1)

/-- Every chunk of the list records the list's length under
`total_chunks`. -/
def totalsOK (L : List PyChunk) : Prop :=
  ∀ i (hi : i < L.length),
    pyGet (L.get ⟨i, hi⟩).metadata "total_chunks" = some (Value.int L.length)

theorem totalsOK_backfill_map (C : List PyChunk) :
    totalsOK (C.map (backfillTotal (Value.int C.length))) := by
  intro i hi
  conv_rhs => rw [List.length_map]
  exact totalOK_backfill C _ i hi

theorem simpleSplit_eq (size overlap : ℕ) (sep text : String) (md : Metadata)
    (ht : text ≠ "") :
    simpleSplit size overlap sep text md =
      (closedChunks md ((segmentsOf sep text).foldl
          (processSegment md size overlap sep) ⟨[], [], 0⟩)).map
        (backfillTotal (Value.int (closedChunks md ((segmentsOf sep text).foldl
          (processSegment md size overlap sep) ⟨[], [], 0⟩)).length)) := by
  simp [simpleSplit, ht]

theorem semanticSplit_eq (size : ℕ) (sentTok : String → List String) (text : String)
    (md : Metadata) (ht : text ≠ "")
    (hp : ¬ (((reSplitBlank text).map pyStrip).filter fun p => p ≠ "").isEmpty) :
    semanticSplit size sentTok text md =
      (if (((((reSplitBlank text).map pyStrip).filter fun p => p ≠ "").foldl
            (processParagraph md size sentTok) ⟨[], [], 0, []⟩)).cur.isEmpty then
          ((((reSplitBlank text).map pyStrip).filter fun p => p ≠ "").foldl
            (processParagraph md size sentTok) ⟨[], [], 0, []⟩).chunks
        else mCloseChunks md ((((reSplitBlank text).map pyStrip).filter fun p => p ≠ "").foldl
            (processParagraph md size sentTok) ⟨[], [], 0, []⟩)).map
        (backfillTotal (Value.int
          (if (((((reSplitBlank text).map pyStrip).filter fun p => p ≠ "").foldl
              (processParagraph md size sentTok) ⟨[], [], 0, []⟩)).cur.isEmpty then
            ((((reSplitBlank text).map pyStrip).filter fun p => p ≠ "").foldl
              (processParagraph md size sentTok) ⟨[], [], 0, []⟩).chunks
          else mCloseChunks md ((((reSplitBlank text).map pyStrip).filter fun p => p ≠ "").foldl
              (processParagraph md size sentTok) ⟨[], [], 0, []⟩)).length)) := by
  rw [semanticSplit]
  simp only [ht, if_false, reduceIte, hp, Bool.false_eq_true]

/-- Claim C4: in both segmentation variants, the emitted chunks carry
`chunk_index` values that are exactly `0..n-1` in emission order, and
every chunk's `total_chunks` equals the number of chunks emitted.
(`chunk_overlap < chunk_size` keeps the fixed-size variant's slicing step
positive, as Python's `range` requires.) -/
theorem chunk_indices_dense (size overlap : ℕ) (sep text : String) (md : Metadata)
    (sentTok : String → List String) (h : overlap < size) :
    ((∀ i (hi : i < (simpleSplit size overlap sep text md).length),
        pyGet ((simpleSplit size overlap sep text md).get ⟨i, hi⟩).metadata
          "chunk_index" = some (Value.int i) ∧
        pyGet ((simpleSplit size overlap sep text md).get ⟨i, hi⟩).metadata
          "total_chunks" =
          some (Value.int (simpleSplit size overlap sep text md).length))) ∧
    ((∀ i (hi : i < (semanticSplit size sentTok text md).length),
        pyGet ((semanticSplit size sentTok text md).get ⟨i, hi⟩).metadata
          "chunk_index" = some (Value.int i) ∧
        pyGet ((semanticSplit size sentTok text md).get ⟨i, hi⟩).metadata
          "total_chunks" =
          some (Value.int (semanticSplit size sentTok text md).length))) := by
  have hnil : idxOK [] := by intro i hi; simp at hi
  constructor
  · have hfold : ∀ st : SState, idxOK st.chunks →
        ∀ l : List String, idxOK (l.foldl (processSegment md size overlap sep) st).chunks :=
      fun st hst l => foldl_preserve (fun b : SState => idxOK b.chunks) _
        (fun b x hb => processSegment_idxOK md size overlap sep b x hb) l st hst
    by_cases ht : text = ""
    · have hz : simpleSplit size overlap sep text md = [] := by simp [simpleSplit, ht]
      intro i hi
      rw [hz] at hi
      simp at hi
    · have hidx : idxOK (simpleSplit size overlap sep text md) := by
        rw [simpleSplit_eq size overlap sep text md ht]
        exact idxOK_backfill _ _ (closedChunks_idxOK md _ (hfold ⟨[], [], 0⟩ hnil _))
      have htot : totalsOK (simpleSplit size overlap sep text md) := by
        rw [simpleSplit_eq size overlap sep text md ht]
        exact totalsOK_backfill_map _
      intro i hi
      exact ⟨hidx i hi, htot i hi⟩
  · have hfold : ∀ st : MState, idxOK st.chunks →
        ∀ l : List String, idxOK (l.foldl (processParagraph md size sentTok) st).chunks :=
      fun st hst l => foldl_preserve (fun b : MState => idxOK b.chunks) _
        (fun b x hb => processParagraph_idxOK md size sentTok b x hb) l st hst
    by_cases ht : text = ""
    · have hz : semanticSplit size sentTok text md = [] := by simp [semanticSplit, ht]
      intro i hi
      rw [hz] at hi
      simp at hi
    · by_cases hp : (((reSplitBlank text).map pyStrip).filter fun p => p ≠ "").isEmpty
      · have hz : semanticSplit size sentTok text md = [] := by
          rw [semanticSplit]
          simp only [ht, if_false, reduceIte, hp, if_true]
        intro i hi
        rw [hz] at hi
        simp at hi
      · have hidx : idxOK (semanticSplit size sentTok text md) := by
          rw [semanticSplit_eq size sentTok text md ht hp]
          refine idxOK_backfill _ _ ?_
          split
          · exact hfold ⟨[], [], 0, []⟩ hnil _
          · exact mCloseChunks_idxOK md _ (hfold ⟨[], [], 0, []⟩ hnil _)
        have htot : totalsOK (semanticSplit size sentTok text md) := by
          rw [semanticSplit_eq size sentTok text md ht hp]
          exact totalsOK_backfill_map _
        intro i hi
        exact ⟨hidx i hi, htot i hi⟩

/-- Claim C4, witness: the spec's own scenario, `"A.\n\nB."` with
`chunk_size = 3`, `chunk_overlap = 0`, checked at concrete positions for
both variants. -/
theorem chunk_indices_dense_witness :
    (pyGet ((simpleSplit 3 0 "\n" "A.\n\nB." []).get ⟨1, by decide⟩).metadata
        "chunk_index" = some (Value.int 1) ∧
      pyGet ((simpleSplit 3 0 "\n" "A.\n\nB." []).get ⟨1, by decide⟩).metadata
        "total_chunks" = some (Value.int (simpleSplit 3 0 "\n" "A.\n\nB." []).length)) ∧
    (pyGet ((semanticSplit 3 (fun s => [s]) "A.\n\nB." []).get ⟨0, by decide⟩).metadata
        "chunk_index" = some (Value.int 0) ∧
      pyGet ((semanticSplit 3 (fun s => [s]) "A.\n\nB." []).get ⟨0, by decide⟩).metadata
        "total_chunks" =
        some (Value.int (semanticSplit 3 (fun s => [s]) "A.\n\nB." []).length)) :=
  ⟨(chunk_indices_dense 3 0 "\n" "A.\n\nB." [] (fun s => [s]) (by decide)).1 1 (by decide),
    (chunk_indices_dense 3 0 "\n" "A.\n\nB." [] (fun s => [s]) (by decide)).2 0 (by decide)⟩

/-! ## Scrap slices of oversized segments (claim C3)

The fixed-size variant skips only *empty* slices (`if chunk_text:`); a
nonempty slice is always emitted, however short.  There is no
quarter-of-`chunk_size` dropping anywhere in `split_text`. -/

theorem mem_closedChunks (md : Metadata) (st : SState) (x : String)
    (hx : x ∈ st.chunks.map fun c => c.text) :
    x ∈ (closedChunks md st).map fun c => c.text := by
  unfold closedChunks
  split
  · exact hx
  · rw [List.map_append]
    exact List.mem_append_left _ hx

theorem mem_sliceStep (md : Metadata) (size overlap : ℕ) (seg : String)
    (acc : List PyChunk) (i : ℕ) (x : String)
    (hx : x ∈ acc.map fun c => c.text) :
    x ∈ (sliceStep md size overlap seg acc i).map fun c => c.text := by
  unfold sliceStep
  dsimp only
  split
  · exact hx
  · rw [List.map_append]
    exact List.mem_append_left _ hx

theorem mem_sliceChunks (md : Metadata) (size overlap : ℕ) (seg : String)
    (chunks : List PyChunk) (x : String) (hx : x ∈ chunks.map fun c => c.text) :
    x ∈ (sliceChunks md size overlap seg chunks).map fun c => c.text := by
  unfold sliceChunks
  exact foldl_preserve (fun l : List PyChunk => x ∈ l.map fun c => c.text) _
    (fun b j hb => mem_sliceStep md size overlap seg b j x hb) _ chunks hx

theorem mem_processSegment (md : Metadata) (size overlap : ℕ) (sep : String)
    (st : SState) (s : String) (x : String)
    (hx : x ∈ st.chunks.map fun c => c.text) :
    x ∈ (processSegment md size overlap sep st s).chunks.map fun c => c.text := by
  unfold processSegment
  dsimp only
  split
  · exact mem_sliceChunks md size overlap _ _ x (mem_closedChunks md st x hx)
  · split
    · exact hx
    · exact mem_closedChunks md st x hx

theorem sliceChunks_mem_of_index (md : Metadata) (size overlap : ℕ) (seg : String) :
    ∀ (idxs : List ℕ) (chunks : List PyChunk) (i : ℕ), i ∈ idxs →
      pySlice seg i size ≠ "" →
      pySlice seg i size ∈
        (idxs.foldl (sliceStep md size overlap seg) chunks).map fun c => c.text := by
  intro idxs
  induction idxs with
  | nil => intro chunks i hi; simp at hi
  | cons j rest ih =>
      intro chunks i hi hne
      rw [List.foldl_cons]
      rcases List.mem_cons.mp hi with rfl | hmem
      · have hin : pySlice seg i size ∈
            (sliceStep md size overlap seg chunks i).map fun c => c.text := by
          unfold sliceStep
          dsimp only
          rw [if_neg hne, List.map_append]
          refine List.mem_append_right _ ?_
          simp
        exact foldl_preserve
          (fun l : List PyChunk => pySlice seg i size ∈ l.map fun c => c.text) _
          (fun b k hb => mem_sliceStep md size overlap seg b k _ hb) rest _ hin
      · exact ih _ i hmem hne

/-- Claim C3, amended: a chunk produced purely as scrap from slicing an
oversized segment is *kept* whenever it is nonempty — only empty slices
are skipped; in particular, scrap chunks shorter than one quarter of
`chunk_size` appear in the output sequence. -/
theorem scrap_slices_retained (size overlap : ℕ) (sep text : String) (md : Metadata)
    (h : overlap < size) (ht : text ≠ "") :
    ∀ s ∈ segmentsOf sep text, size < (pyStrip s ++ sep).length →
      ∀ i ∈ rangeStep (pyStrip s ++ sep).length (size - overlap),
        pySlice (pyStrip s ++ sep) i size ≠ "" →
        pySlice (pyStrip s ++ sep) i size ∈
          (simpleSplit size overlap sep text md).map fun c => c.text := by
  intro s hs hover i hi hne
  rw [simpleSplit_eq size overlap sep text md ht]
  have hbf : (fun c => (backfillTotal (Value.int (closedChunks md ((segmentsOf sep text).foldl
      (processSegment md size overlap sep) ⟨[], [], 0⟩)).length) c).text) =
      fun c : PyChunk => c.text := funext fun c => rfl
  rw [List.map_map, Function.comp_def, hbf]
  apply mem_closedChunks
  obtain ⟨l1, l2, hsplit⟩ := List.append_of_mem hs
  rw [hsplit, List.foldl_append, List.foldl_cons]
  refine foldl_preserve
    (fun b : SState => pySlice (pyStrip s ++ sep) i size ∈ b.chunks.map fun c => c.text) _
    (fun b x hb => mem_processSegment md size overlap sep b x _ hb) l2 _ ?_
  unfold processSegment
  dsimp only
  split
  · exact sliceChunks_mem_of_index md size overlap _ _ _ i hi hne
  · exact absurd hover (by assumption)

/-- Claim C3, counterexample: with `chunk_size = 8`, `chunk_overlap = 0`
and input `"abcdefgh"`, the oversized segment `"abcdefgh\n"` is sliced
into `"abcdefgh"` and the scrap `"\n"`; the scrap is shorter than one
quarter of `chunk_size` yet is *not* dropped — it is the second chunk of
the output, marked `is_large_segment`. -/
theorem scrap_not_dropped_counterexample :
    (simpleSplit 8 0 "\n" "abcdefgh" []).map (fun c => c.text) = ["abcdefgh", "\n"] ∧
    pyGet ((simpleSplit 8 0 "\n" "abcdefgh" []).get ⟨1, by decide⟩).metadata
      "is_large_segment" = some (Value.bool true) ∧
    "\n".length * 4 < 8 := by
  decide

/-- Claim C3 (amended), witness: in the counterexample input the scrap
slice `"\n"` is indeed retained, via the general retention theorem. -/
theorem scrap_slices_retained_witness :
    pySlice (pyStrip "abcdefgh" ++ "\n") 8 8 ∈
      (simpleSplit 8 0 "\n" "abcdefgh" []).map fun c => c.text :=
  scrap_slices_retained 8 0 "\n" "abcdefgh" [] (by decide) (by decide)
    "abcdefgh" (by decide) (by decide) 8 (by decide) (by decide)

/-! ## The score order is the real cosine order

`cosLE` was defined without square roots; these lemmas verify that it
denotes exactly `a.num / sqrt a.denSq ≤ b.num / sqrt b.denSq` over the
real numbers, and that `computeSimilarity` denotes the source's
`dot / (norm_q * norm_c)`. -/

theorem cosLE_iff_real (a b : CosSim) :
    cosLE a b ↔
      (a.num : ℝ) / Real.sqrt (a.denSq : ℝ) ≤ (b.num : ℝ) / Real.sqrt (b.denSq : ℝ) := by
  have hda : (0:ℝ) < (a.denSq : ℝ) := by exact_mod_cast a.denSqPos
  have hdb : (0:ℝ) < (b.denSq : ℝ) := by exact_mod_cast b.denSqPos
  have hsa : (0:ℝ) < Real.sqrt (a.denSq : ℝ) := Real.sqrt_pos.mpr hda
  have hsb : (0:ℝ) < Real.sqrt (b.denSq : ℝ) := Real.sqrt_pos.mpr hdb
  have hsa2 : Real.sqrt (a.denSq : ℝ) ^ 2 = (a.denSq : ℝ) := Real.sq_sqrt hda.le
  have hsb2 : Real.sqrt (b.denSq : ℝ) ^ 2 = (b.denSq : ℝ) := Real.sq_sqrt hdb.le
  rw [div_le_div_iff hsa hsb]
  constructor
  · rintro (⟨h1, h2⟩ | ⟨h1, h2, h3⟩ | ⟨h1, h2, h3⟩)
    · have h1' : (a.num:ℝ) ≤ 0 := by exact_mod_cast h1
      have h2' : (0:ℝ) ≤ (b.num:ℝ) := by exact_mod_cast h2
      calc (a.num:ℝ) * Real.sqrt (b.denSq : ℝ) ≤ 0 :=
            mul_nonpos_of_nonpos_of_nonneg h1' hsb.le
        _ ≤ (b.num:ℝ) * Real.sqrt (a.denSq : ℝ) := mul_nonneg h2' hsa.le
    · have h1' : (0:ℝ) ≤ (a.num:ℝ) := by exact_mod_cast h1
      have h2' : (0:ℝ) ≤ (b.num:ℝ) := by exact_mod_cast h2
      have h3' : (a.num:ℝ)^2 * (b.denSq:ℝ) ≤ (b.num:ℝ)^2 * (a.denSq:ℝ) := by
        exact_mod_cast h3
      have hy : (0:ℝ) ≤ (b.num:ℝ) * Real.sqrt (a.denSq : ℝ) := mul_nonneg h2' hsa.le
      refine le_of_pow_le_pow_left two_ne_zero hy ?_
      rw [mul_pow, mul_pow, hsa2, hsb2]
      exact h3'
    · have h1' : (a.num:ℝ) ≤ 0 := by exact_mod_cast h1
      have h2' : (b.num:ℝ) ≤ 0 := by exact_mod_cast h2
      have h3' : (b.num:ℝ)^2 * (a.denSq:ℝ) ≤ (a.num:ℝ)^2 * (b.denSq:ℝ) := by
        exact_mod_cast h3
      have hy : (0:ℝ) ≤ -((a.num:ℝ) * Real.sqrt (b.denSq : ℝ)) := by
        nlinarith [hsb.le]
      have hsq : (-((b.num:ℝ) * Real.sqrt (a.denSq : ℝ)))^2 ≤
          (-((a.num:ℝ) * Real.sqrt (b.denSq : ℝ)))^2 := by
        rw [neg_sq, neg_sq, mul_pow, mul_pow, hsa2, hsb2]
        exact h3'
      have := le_of_pow_le_pow_left two_ne_zero hy hsq
      linarith
  · intro hr
    rcases le_total a.num 0 with h1 | h1 <;> rcases le_total b.num 0 with h2 | h2
    · refine Or.inr (Or.inr ⟨h1, h2, ?_⟩)
      have h1' : (a.num:ℝ) ≤ 0 := by exact_mod_cast h1
      have h2' : (b.num:ℝ) ≤ 0 := by exact_mod_cast h2
      have hx : (0:ℝ) ≤ -((b.num:ℝ) * Real.sqrt (a.denSq : ℝ)) := by
        nlinarith [hsa.le]
      have hle : -((b.num:ℝ) * Real.sqrt (a.denSq : ℝ)) ≤
          -((a.num:ℝ) * Real.sqrt (b.denSq : ℝ)) := by linarith
      have hkey := pow_le_pow_left hx hle 2
      rw [neg_sq, neg_sq, mul_pow, mul_pow, hsa2, hsb2] at hkey
      exact_mod_cast hkey
    · exact Or.inl ⟨h1, h2⟩
    · -- 0 ≤ a.num and b.num ≤ 0: the real inequality forces both to vanish
      have h1' : (0:ℝ) ≤ (a.num:ℝ) := by exact_mod_cast h1
      have h2' : (b.num:ℝ) ≤ 0 := by exact_mod_cast h2
      have hz1 : (a.num:ℝ) * Real.sqrt (b.denSq : ℝ) = 0 := by
        nlinarith [mul_nonneg h1' hsb.le, mul_nonpos_of_nonpos_of_nonneg h2' hsa.le]
      have ha0 : (a.num:ℝ) = 0 := by
        rcases mul_eq_zero.mp hz1 with h | h
        · exact h
        · exact absurd h hsb.ne'
      have hz2 : (b.num:ℝ) * Real.sqrt (a.denSq : ℝ) = 0 := by
        nlinarith [mul_nonneg h1' hsb.le, mul_nonpos_of_nonpos_of_nonneg h2' hsa.le]
      have hb0 : (b.num:ℝ) = 0 := by
        rcases mul_eq_zero.mp hz2 with h | h
        · exact h
        · exact absurd h hsa.ne'
      refine Or.inl ⟨?_, ?_⟩
      · exact le_of_eq (by exact_mod_cast ha0)
      · exact le_of_eq (by exact_mod_cast hb0.symm)
    · refine Or.inr (Or.inl ⟨h1, h2, ?_⟩)
      have h1' : (0:ℝ) ≤ (a.num:ℝ) := by exact_mod_cast h1
      have hx : (0:ℝ) ≤ (a.num:ℝ) * Real.sqrt (b.denSq : ℝ) := mul_nonneg h1' hsb.le
      have hkey := pow_le_pow_left hx hr 2
      rw [mul_pow, mul_pow, hsa2, hsb2] at hkey
      exact_mod_cast hkey

theorem computeSimilarity_val (q c : Vec) (hq : dotQ q q ≠ 0) (hc : dotQ c c ≠ 0) :
    ((computeSimilarity q c).num : ℝ) / Real.sqrt ((computeSimilarity q c).denSq : ℝ) =
      (dotQ q c : ℝ) /
        (Real.sqrt ((dotQ q q : ℚ) : ℝ) * Real.sqrt ((dotQ c c : ℚ) : ℝ)) := by
  unfold computeSimilarity
  rw [dif_neg (not_or.mpr ⟨hq, hc⟩)]
  dsimp only
  rw [Rat.cast_mul, Real.sqrt_mul (by exact_mod_cast dotQ_self_nonneg q)]
